import Mathlib

/-
  A shallow embedding of the marker document-structure consolidation core:
  the block merger (marker/builders/molecule_layout.py), the layout rule
  processor (marker/processors/layout_rules.py) and the order processor
  (marker/processors/order.py).  Geometry coordinates and thresholds are
  rationals; page structures are lists of block identifiers.
-/

namespace Marker

/-- Euclid's algorithm with explicit fuel (structural recursion, so the
kernel can evaluate it; fuel m + 1 bounds the iteration count). -/
def gcdF : Nat → Nat → Nat → Nat
  | 0, _, n => n
  | _ + 1, 0, n => n
  | fuel + 1, m, n => gcdF fuel (n % m) m

/-- Greatest common divisor via `gcdF`. -/
def natGcd (m n : Nat) : Nat := gcdF (m + 1) m n

/-- Exact rational numbers as normalized numerator / denominator pairs; the
denominator is stored minus one (`dm1`), keeping it positive by
construction.  The source works with Python floats; this embedding models
them as exact rationals, with all operations kernel-computable. -/
structure Q where
  num : Int
  dm1 : Nat
deriving DecidableEq, Repr

/-- The (positive) denominator as an integer. -/
def Q.den (q : Q) : Int := (q.dm1 : Int) + 1

/-- Build the normalized rational n / d (for d = the given Nat, positive at
every call site). -/
def Q.normalize (n : Int) (d : Nat) : Q :=
  let g := natGcd n.natAbs d
  if g = 0 then ⟨n, d - 1⟩ else ⟨n / (g : Int), d / g - 1⟩

instance (n : Nat) : OfNat Q n := ⟨⟨(n : Int), 0⟩⟩

instance : IntCast Q := ⟨fun i => ⟨i, 0⟩⟩

instance : Add Q :=
  ⟨fun a b => Q.normalize (a.num * b.den + b.num * a.den) ((a.dm1 + 1) * (b.dm1 + 1))⟩

instance : Neg Q := ⟨fun a => ⟨-a.num, a.dm1⟩⟩

instance : Sub Q := ⟨fun a b => a + (-b)⟩

instance : Mul Q :=
  ⟨fun a b => Q.normalize (a.num * b.num) ((a.dm1 + 1) * (b.dm1 + 1))⟩

/-- Multiplicative inverse (0 for 0, as in `Rat`). -/
def Q.inv (a : Q) : Q :=
  if 0 < a.num then ⟨a.den, a.num.natAbs - 1⟩
  else if a.num < 0 then ⟨-a.den, a.num.natAbs - 1⟩
  else 0

instance : Div Q := ⟨fun a b => a * b.inv⟩

instance : LT Q := ⟨fun a b => a.num * b.den < b.num * a.den⟩

instance : LE Q := ⟨fun a b => a.num * b.den ≤ b.num * a.den⟩

instance : DecidableRel (α := Q) (· < ·) := fun _ _ => Int.decLt _ _

instance : DecidableRel (α := Q) (· ≤ ·) := fun _ _ => Int.decLe _ _

/-- Axis-aligned bounding polygon of a block (PolygonBox accessors
`x_start`, `y_start`, `x_end`, `y_end`). -/
structure Polygon where
  x_start : Q
  y_start : Q
  x_end : Q
  y_end : Q
deriving DecidableEq, Repr

/-- Block type tags (marker.schema.BlockTypes) used by the embedded code. -/
inductive BlockTypes where
  | Span
  | Text
  | Table
  | Picture
  | Molecule
  | MoleculeTable
deriving DecidableEq, Repr

/-- Modelled from the spec: a contained leaf span carries source-order
metadata `minimum_position` / `maximum_position` describing its location in
the original content stream. -/
structure SpanInfo where
  minimum_position : Q
  maximum_position : Q
deriving DecidableEq, Repr

/-- A block: identifier, type tag, polygon, owning page id, removed flag
(`current_children` excludes removed blocks) and, modelled from the spec,
the ordered list of contained leaf spans returned by
`contained_blocks(document, (BlockTypes.Span,))`. -/
structure Block where
  id : Nat
  block_type : BlockTypes
  polygon : Polygon
  page_id : Int
  removed : Bool
  spans : List SpanInfo
deriving DecidableEq, Repr

/-- A page: identifier, bounding rectangle, the ordered `structure` of block
identifiers, the text-extraction / layout-slicing metadata read by
OrderProcessor, and the `layout_rules_applied` marker list appended by
LayoutRuleProcessor.apply_define_regions_rule. -/
structure Page where
  page_id : Int
  width : Q
  height : Q
  struct : List Nat
  text_extraction_method : String
  layout_sliced : Bool
  layout_rules_applied : List String
deriving DecidableEq, Repr

/-- A document: its pages and the flat block index (identifier-unique per
the data-model invariant). -/
structure Document where
  pages : List Page
  blocks : List Block
deriving DecidableEq, Repr

/-- Modelled from the spec: `Document.get_block(id)` resolves an identifier
in the flat document index. -/
def getBlock (doc : Document) (bid : Nat) : Option Block :=
  doc.blocks.find? (fun b => b.id == bid)

/-- Modelled from the spec: a page's current (non-removed) child blocks, in
index (insertion) order -- the scan order of `page.current_children`. -/
def currentChildren (idx : List Block) (page : Page) : List Block :=
  idx.filter (fun b => b.page_id == page.page_id && !b.removed)

/-- A region record of a `define_regions` rule: `{name, y_start_percent,
y_end_percent, layout_type}`; the percent and layout fields are read with
`.get` defaults 0, 100 and "single_column". -/
structure Region where
  name : String
  y_start_percent : Option Q
  y_end_percent : Option Q
  layout_type : Option String
deriving DecidableEq, Repr

/-- A configuration rule record; every field mirrors a `rule.get(...)`
access in the source: `rtype` is `rule.get("type")`, `widthRatioQ` is
`rule.get("width_ratio")`, `pages` is `rule.get("pages", [])`, `regions` is
`rule.get("regions", [])` and `region_order` is
`rule.get("region_order", [])`. -/
structure Rule where
  rtype : Option String
  position : Option String
  widthRatioQ : Option Q
  pages : List Int
  regions : List Region
  region_order : List String
deriving DecidableEq, Repr

/-- Insert an element into a list sorted ascending by `key`, before the
first element whose key is greater than or equal: the insertion step of a
stable sort, matching Python's stable `sort`/`sorted`. -/
def insertKeyed {α : Type} (key : α → Q) (a : α) : List α → List α
  | [] => [a]
  | c :: cs => if key c < key a then c :: insertKeyed key a cs else a :: c :: cs

/-- Stable ascending sort by a rational key (Python `sorted(xs, key=...)`). -/
def sortKeyed {α : Type} (key : α → Q) : List α → List α
  | [] => []
  | a :: l => insertKeyed key a (sortKeyed key l)

/-- `sorted(blocks, key=lambda b: b.polygon.y_start)`. -/
def sortBlocksByY (blocks : List Block) : List Block :=
  sortKeyed (fun b => b.polygon.y_start) blocks

namespace LayoutRules

/-- LayoutRuleProcessor._sort_blocks_in_reading_order: for "two_column",
partition on `x_start < page_width / 2` (the single for-loop over `blocks`
appending to `left_column` / `right_column` is an order-preserving
partition, i.e. two filters), sort each column by `y_start`, concatenate
left then right; otherwise sort all blocks by `y_start`. -/
def sort_blocks_in_reading_order (blocks : List Block) (layout_type : String)
    (page_width : Q) : List Block :=
  if layout_type = "two_column" then
    let page_center_x := page_width / 2
    let left_column := blocks.filter (fun b => decide (b.polygon.x_start < page_center_x))
    let right_column := blocks.filter (fun b => !(decide (b.polygon.x_start < page_center_x)))
    sortBlocksByY left_column ++ sortBlocksByY right_column
  else
    sortBlocksByY blocks

/-- The gutter test of LayoutRuleProcessor.apply_exclude_gutter_rule for a
single structure id: `x_end < page_width * width_ratio` for "left",
`x_start > page_width * (1 - width_ratio)` for "right", false otherwise.
The rule is a no-op for ids that do not resolve or for other positions;
blocks satisfying the test are removed from the page's structure
(`page.remove_structure_items`, modelled from the spec as filtering the
structure; the document index is untouched). -/
def inGutter (doc : Document) (pos : String) (page_width wr : Q) (bid : Nat) : Bool :=
  match getBlock doc bid with
  | some b =>
    if pos = "left" then decide (b.polygon.x_end < page_width * wr)
    else if pos = "right" then decide (b.polygon.x_start > page_width * (1 - wr))
    else false
  | none => false

/-- LayoutRuleProcessor.apply_exclude_gutter_rule, dispatching on the two
`rule.get` parameters and filtering the structure by the gutter test. -/
def apply_exclude_gutter_rule (doc : Document) (page : Page) (rule : Rule) : Page :=
  match rule.position, rule.widthRatioQ with
  | some pos, some wr =>
    if pos = "" ∨ wr.num = 0 then page
    else
      { page with
        struct := page.struct.filter (fun bid => !(inGutter doc pos page.width wr bid)) }
  | _, _ => page

/-- The dictionary comprehension `{region['name']: region for region in
rule.get("regions", [])}` followed by `region_map.get(name)`: the last
region with a given name wins. -/
def regionLookup (regions : List Region) (name : String) : Option Region :=
  regions.reverse.find? (fun r => r.name == name)

/-- One iteration of the per-region loop shared by both
`apply_define_regions_rule` implementations: resolve the region name
(unknown names are skipped), select the blocks whose full vertical extent
lies within the region's absolute y-bounds (computed from the page height
and the percent fields) and append their ids in reading order. -/
def regionStep (all_blocks : List Block) (page_height page_width : Q)
    (regions : List Region) (acc : List Nat) (region_name : String) : List Nat :=
  match regionLookup regions region_name with
  | none => acc
  | some region_def =>
    acc ++ (sort_blocks_in_reading_order
      (all_blocks.filter (fun b =>
        decide (b.polygon.y_start ≥ page_height * ((region_def.y_start_percent.getD 0) / 100)) &&
        decide (b.polygon.y_end ≤ page_height * ((region_def.y_end_percent.getD 100) / 100))))
      (region_def.layout_type.getD "single_column") page_width).map (fun b => b.id)

/-- The per-region block selection and ordering loop shared by both
`apply_define_regions_rule` implementations, over the names listed in
`region_order`. -/
def regionsStructure (all_blocks : List Block) (page_height page_width : Q)
    (regions : List Region) (region_order : List String) : List Nat :=
  region_order.foldl (regionStep all_blocks page_height page_width regions) []

/-- The trailing step of both `apply_define_regions_rule` implementations:
structure ids not placed by any region (`set(page.structure) -
set(new_structure)`) are resolved, sorted by `y_start` and appended.  The
Python set has unspecified iteration order and structure ids are unique by
the data-model invariant, so the set difference is modelled as a filter of
the structure; ties on `y_start` (where the set order would show) are the
only unspecified case. -/
def appendNonRegion (doc : Document) (struct new_structure : List Nat) : List Nat :=
  let non_region_ids := struct.filter (fun bid => !(new_structure.contains bid))
  if non_region_ids.isEmpty then new_structure
  else
    let non_region_blocks := non_region_ids.filterMap (getBlock doc)
    new_structure ++ (sortBlocksByY non_region_blocks).map (fun b => b.id)

/-- LayoutRuleProcessor.apply_define_regions_rule: applies only to pages
listed in the rule's `pages`; builds the region-ordered structure, appends
unmatched blocks sorted by `y_start`, replaces the page's structure
wholesale and appends "define_regions" to `page.layout_rules_applied`. -/
def apply_define_regions_rule (doc : Document) (page : Page) (rule : Rule) : Page :=
  if page.page_id ∈ rule.pages then
    let all_blocks := page.struct.filterMap (getBlock doc)
    let new_structure := regionsStructure all_blocks page.height page.width
      rule.regions rule.region_order
    { page with
      struct := appendNonRegion doc page.struct new_structure,
      layout_rules_applied := page.layout_rules_applied ++ ["define_regions"] }
  else page

/-- LayoutRuleProcessor.apply_rules: dispatch each layout-category rule on
its `type`; unknown types are logged and skipped (no page change). -/
def apply_rules (doc : Document) (page : Page) (layout_rules : List Rule) : Page :=
  layout_rules.foldl (fun p rule =>
    if rule.rtype = some "exclude_gutter" then apply_exclude_gutter_rule doc p rule
    else if rule.rtype = some "define_regions" then apply_define_regions_rule doc p rule
    else p) page

/-- LayoutRuleProcessor.__call__: apply the layout rules to every page.
The rules read only the immutable block index, so the per-page in-place
loop is a map over pages. -/
def processorCall (doc : Document) (layout_rules : List Rule) : Document :=
  { doc with pages := doc.pages.map (fun p => apply_rules doc p layout_rules) }

end LayoutRules

namespace OrderProc

/-- OrderProcessor._sort_blocks_in_reading_order: for "two_column", the left
column is the blocks with `x_start < page_width / 2` and the right column
the rest (two list comprehensions); each column is sorted by `y_start` and
the left column precedes the right; otherwise sort all blocks by `y_start`. -/
def sort_blocks_in_reading_order (blocks : List Block) (layout_type : String)
    (page_width : Q) : List Block :=
  if layout_type = "two_column" then
    let left_column := blocks.filter (fun b => decide (b.polygon.x_start < page_width / 2))
    let right_column := blocks.filter (fun b => decide (b.polygon.x_start ≥ page_width / 2))
    sortBlocksByY left_column ++ sortBlocksByY right_column
  else
    sortBlocksByY blocks

/-- OrderProcessor.apply_define_regions_rule: the same region-ordered
structure rebuild as the layout-rule variant, but without marking
`layout_rules_applied`. -/
def apply_define_regions_rule (doc : Document) (page : Page) (rule : Rule) : Page :=
  let all_blocks := page.struct.filterMap (getBlock doc)
  let new_structure := LayoutRules.regionsStructure all_blocks page.height page.width
    rule.regions rule.region_order
  { page with struct := LayoutRules.appendNonRegion doc page.struct new_structure }

/-- The `block_idxs` mapping: a finite map from block id to order key,
embedding the Python `defaultdict(int)` (explicit membership, default 0). -/
def KeyMap := List (Nat × Q)

/-- Lookup in the key map (`block_idxs[bid]` when present). -/
def keyLookup (m : KeyMap) (bid : Nat) : Option Q :=
  match m with
  | [] => none
  | (k, v) :: rest => if k == bid then some v else keyLookup rest bid

/-- `bid in block_idxs`. -/
def keyMem (m : KeyMap) (bid : Nat) : Bool :=
  (keyLookup m bid).isSome

/-- `block_idxs[bid] = v` (overwrite or insert). -/
def keySet (m : KeyMap) (bid : Nat) (v : Q) : KeyMap :=
  match m with
  | [] => [(bid, v)]
  | (k, w) :: rest => if k == bid then (bid, v) :: rest else (k, w) :: keySet rest bid v

/-- The span-midpoint order key of a block's contained spans:
`(spans[0].minimum_position + spans[-1].maximum_position) / 2`, or none when
the block contains no span. -/
def spansKey : List SpanInfo → Option Q
  | [] => none
  | s :: rest => some ((s.minimum_position + (rest.getLastD s).maximum_position) / 2)

/-- One iteration of the first loop of apply_default_ordering for a block
id: blocks with at least one contained span get their span-midpoint key;
others leave the map unchanged. -/
def initStep (doc : Document) (m : KeyMap) (bid : Nat) : KeyMap :=
  match getBlock doc bid with
  | none => m
  | some b =>
    match spansKey b.spans with
    | none => m
    | some k => keySet m bid k

/-- The first loop of apply_default_ordering: assign every block of the
structure with at least one contained span its span-midpoint key. -/
def initialKeys (doc : Document) (struct : List Nat) : KeyMap :=
  struct.foldl (initStep doc) []

/-- The neighbor walk shared by the backward and forward interpolation
loops: scan the candidate ids in order, adding `stepAdd` to the counter per
skipped id, and return the first id present in the key map together with
the final counter. -/
def findKeyed (m : KeyMap) (stepAdd : Int) : List Nat → Int → Option (Nat × Int)
  | [], _ => none
  | x :: xs, add =>
    if keyMem m x then some (x, add) else findKeyed m stepAdd xs (add + stepAdd)

/-- The neighbour interpolation of the second loop of
apply_default_ordering: walk backward from the block (the reversed prefix
of the structure before its position; `get_prev_block` is modelled from the
spec as the previous block in the page's linear order) to the nearest id in
the key map, with the counter starting at 1 and incremented per skipped
block, else walk forward (counter starting at -1 and decremented), and
store the neighbour's key plus the counter; when both walks fail the map is
unchanged. -/
def interpolateKey (struct : List Nat) (m : KeyMap) (bid : Nat) : KeyMap :=
  match struct.indexOf? bid with
  | none => m
  | some i =>
    match findKeyed m 1 ((struct.take i).reverse) 1 with
    | some (pid, add) => keySet m bid ((keyLookup m pid).getD 0 + (add : Q))
    | none =>
      match findKeyed m (-1) (struct.drop (i + 1)) (-1) with
      | some (nid, add) => keySet m bid ((keyLookup m nid).getD 0 + (add : Q))
      | none => m

/-- One iteration of the second loop of apply_default_ordering for the block
id `bid`: the `defaultdict` access `block_idxs[bid]` first inserts 0 when
absent; a strictly positive stored key short-circuits; otherwise the key is
interpolated from the nearest keyed neighbour. -/
def assignStep (struct : List Nat) (m : KeyMap) (bid : Nat) : KeyMap :=
  let m1 := if keyMem m bid then m else keySet m bid 0
  if 0 < (keyLookup m1 bid).getD 0 then m1 else interpolateKey struct m1 bid

/-- The full key assignment of apply_default_ordering: the span-key loop
followed by the interpolation loop over the structure in order. -/
def assignKeys (doc : Document) (struct : List Nat) : KeyMap :=
  struct.foldl (assignStep struct) (initialKeys doc struct)

/-- The final step of apply_default_ordering:
`page.structure = sorted(page.structure, key=lambda x: block_idxs[x])`
(stable sort; absent ids read the defaultdict default 0). -/
def sortStructByKeys (m : KeyMap) (struct : List Nat) : List Nat :=
  sortKeyed (fun bid => (keyLookup m bid).getD 0) struct

/-- The eligibility filter at the top of the per-page body of
apply_default_ordering: OCRed pages (text_extraction_method other than
"pdftext") and pages without layout slicing are skipped. -/
def pageEligible (page : Page) : Bool :=
  page.text_extraction_method == "pdftext" && page.layout_sliced

/-- The per-page body of OrderProcessor.apply_default_ordering: on an
eligible page, compute the order keys and stably re-sort the structure. -/
def defaultOrderPage (doc : Document) (page : Page) : Page :=
  if pageEligible page then
    { page with struct := sortStructByKeys (assignKeys doc page.struct) page.struct }
  else page

/-- OrderProcessor.apply_default_ordering: its body is
`for page in document.pages:` -- the loop variable shadows the `page`
argument, so a single call re-orders every eligible page of the document,
not just the page it was called for.  Each page's re-ordering reads only
its own structure and the immutable block index, so the in-place loop is a
map over pages. -/
def apply_default_ordering (doc : Document) : Document :=
  { doc with pages := doc.pages.map (defaultOrderPage doc) }

/-- One iteration of the page loop of OrderProcessor.__call__ for the page
at position `i`: pages listed in the block_ordering define_regions rule get
the region rule applied; every other page triggers apply_default_ordering
(which, because of the shadowed loop variable, touches all pages). -/
def callStep (regions_rule : Option Rule) (doc : Document) (i : Nat) : Document :=
  match doc.pages.get? i with
  | none => doc
  | some page =>
    match regions_rule with
    | some rule =>
      if page.page_id ∈ rule.pages then
        { doc with pages := doc.pages.set i (apply_define_regions_rule doc page rule) }
      else apply_default_ordering doc
    | none => apply_default_ordering doc

/-- OrderProcessor.__call__: pick the first block_ordering rule of type
"define_regions" and run the page loop. -/
def processorCall (doc : Document) (block_ordering_rules : List Rule) : Document :=
  let regions_rule := block_ordering_rules.find? (fun r => r.rtype == some "define_regions")
  (List.range doc.pages.length).foldl (callStep regions_rule) doc

end OrderProc

namespace MoleculeLayout

/-- A detection record for one molecule or table: only the bbox takes part
in the merge logic (confidence and payload are carried opaquely by the
created block and are not consulted). -/
structure Detection where
  bbox : List Q
deriving DecidableEq, Repr

/-- A per-page detection-result record `{page_idx, molecules, tables}`;
`page_idx` mirrors `page_result.get('page_idx', 0)`. -/
structure PageResult where
  page_idx : Option Int
  molecules : List Detection
  tables : List Detection
deriving DecidableEq, Repr

/-- PolygonBox.from_bbox on a 4-coordinate bbox `[x1, y1, x2, y2]`; callers
check the length first, so the catch-all is never reached. -/
def polygonFromBbox : List Q → Polygon
  | [x1, y1, x2, y2] => ⟨x1, y1, x2, y2⟩
  | _ => ⟨0, 0, 0, 0⟩

/-- Class attribute `overlap_threshold` of MoleculeLayoutBuilder. -/
def overlap_threshold : Q := 9 / 10

/-- Class attribute `table_overlap_threshold` of MoleculeLayoutBuilder. -/
def table_overlap_threshold : Q := 9 / 10

/-- The detection loops of merge_molecule_blocks_to_pages: each detection
whose bbox has exactly 4 coordinates becomes a new block of the given type
with the page's id; malformed bboxes are dropped.  Fresh identifiers are
drawn from the counter `nid`. -/
def buildDetectionBlocks (kind : BlockTypes) (pid : Int) (dets : List Detection)
    (nid : Nat) : List Block × Nat :=
  dets.foldl (fun acc d =>
    if d.bbox.length == 4 then
      (acc.1 ++ [{ id := acc.2, block_type := kind, polygon := polygonFromBbox d.bbox,
                   page_id := pid, removed := false, spans := [] }], acc.2 + 1)
    else acc) ([], nid)

/-- The inner scan of _replace_overlapping_blocks for one candidate: the
first existing block in scan order that is not type-excluded, passes the
type restriction when a non-empty one is given (Python truthiness of
`target_types`), and whose overlap fraction with the candidate reaches the
threshold (`overlap_pct >= threshold`, inclusive).  The overlap fraction
`ov` is a parameter: its denominator is left open by the spec. -/
def findReplaceTarget (ov : Polygon → Polygon → Q) (threshold : Q)
    (exclude_types target_types : List BlockTypes)
    (children : List Block) (new_block : Block) : Option Block :=
  children.find? (fun existing =>
    !(decide (existing.block_type ∈ exclude_types)) &&
    (decide (target_types = []) || decide (existing.block_type ∈ target_types)) &&
    decide (threshold ≤ ov existing.polygon new_block.polygon))

/-- Modelled from the spec: `page.replace_block(old, new)` swaps the new
block into the old block's position in the structure and retires the old
block in the index (it stops being a current child); the new block is
registered in the index. -/
def replaceBlockOp (idx : List Block) (page : Page) (old new_block : Block) :
    List Block × Page :=
  (idx.map (fun b => if b.id == old.id then { b with removed := true } else b)
     ++ [new_block],
   { page with struct := page.struct.map (fun x => if x == old.id then new_block.id else x) })

/-- Modelled from the spec: `page.add_full_block(new)` registers the block
in the index; the caller appends its id to the structure separately. -/
def add_full_block (idx : List Block) (b : Block) : List Block :=
  idx ++ [b]

/-- One replacement of _execute_block_operations: set the new block's
page_id to the page's id, then `page.replace_block(old, new)`. -/
def replaceStep (s : List Block × Page) (pr : Block × Block) : List Block × Page :=
  replaceBlockOp s.1 s.2 pr.1 { pr.2 with page_id := s.2.page_id }

/-- One addition of _execute_block_operations: set the new block's page_id,
register it (`page.add_full_block`) and append its id to the structure. -/
def addStep (s : List Block × Page) (b : Block) : List Block × Page :=
  (add_full_block s.1 { b with page_id := s.2.page_id },
   { s.2 with struct := s.2.struct ++ [({ b with page_id := s.2.page_id } : Block).id] })

/-- MoleculeLayoutBuilder._execute_block_operations: run all replacements
(swapping each new block into the old block's structure position), then all
additions (appending each new block's id to the end of the structure). -/
def execute_block_operations (idx : List Block) (page : Page)
    (blocks_to_replace : List (Block × Block)) (blocks_to_add : List Block) :
    List Block × Page :=
  blocks_to_add.foldl addStep (blocks_to_replace.foldl replaceStep (idx, page))

/-- MoleculeLayoutBuilder._replace_overlapping_blocks: partition the
candidates into replacement pairs (first qualifying existing block, scan
stopped by `break`) and pure additions, then execute all operations.  The
scan reads the page's current children once; mutations happen only in the
execution phase, as in the source. -/
def replace_overlapping_blocks (ov : Polygon → Polygon → Q) (idx : List Block)
    (page : Page) (new_blocks : List Block) (threshold : Q)
    (exclude_types target_types : List BlockTypes) : List Block × Page :=
  if new_blocks.isEmpty then (idx, page)
  else
    let scan := new_blocks.foldl
      (fun (acc : List (Block × Block) × List Block) nb =>
        match findReplaceTarget ov threshold exclude_types target_types
            (currentChildren idx page) nb with
        | some eb => (acc.1 ++ [(eb, nb)], acc.2)
        | none => (acc.1, acc.2 ++ [nb])) ([], [])
    execute_block_operations idx page scan.1 scan.2

/-- Python list indexing `l[i]`: non-negative indices from the front,
negative indices from the end; none when out of bounds (the source would
raise IndexError there, and in either reading no block is placed). -/
def pyGet {α : Type} (l : List α) (i : Int) : Option α :=
  if 0 ≤ i then l.get? i.toNat
  else if (-i).toNat ≤ l.length then l.get? (l.length - (-i).toNat) else none

/-- The Nat position addressed by the Python index `i` in a list of length
`n` (meaningful when `pyGet` succeeds). -/
def pyPos (n : Nat) (i : Int) : Nat :=
  if 0 ≤ i then i.toNat else n - (-i).toNat

/-- One iteration of merge_molecule_blocks_to_pages for a single
detection-result record: records with `page_idx >= len(pages)` are skipped;
otherwise `pages[page_idx]` is taken with Python indexing, molecule and
table blocks are built from well-formed bboxes, molecules run a replacement
pass against all current children with `overlap_threshold`, and molecule
tables run one restricted to Table blocks with `table_overlap_threshold`. -/
def mergePageResult (ov : Polygon → Polygon → Q) (doc : Document) (nid : Nat)
    (r : PageResult) : Document × Nat :=
  let pidx : Int := r.page_idx.getD 0
  if (doc.pages.length : Int) ≤ pidx then (doc, nid)
  else
    match pyGet doc.pages pidx with
    | none => (doc, nid)
    | some page =>
      let pi := pyPos doc.pages.length pidx
      let built1 := buildDetectionBlocks BlockTypes.Molecule page.page_id r.molecules nid
      let built2 := buildDetectionBlocks BlockTypes.MoleculeTable page.page_id r.tables built1.2
      let molecule_blocks := built1.1
      let table_blocks := built2.1
      let s1 := if molecule_blocks.isEmpty then (doc.blocks, page)
        else replace_overlapping_blocks ov doc.blocks page molecule_blocks
          overlap_threshold [] []
      let s2 := if table_blocks.isEmpty then s1
        else replace_overlapping_blocks ov s1.1 s1.2 table_blocks
          table_overlap_threshold [] [BlockTypes.Table]
      ({ pages := doc.pages.set pi s2.2, blocks := s2.1 }, built2.2)

/-- MoleculeLayoutBuilder.merge_molecule_blocks_to_pages: fold the
per-record merge over the detection results. -/
def merge_molecule_blocks_to_pages (ov : Polygon → Polygon → Q) (doc : Document)
    (nid : Nat) (results : List PageResult) : Document × Nat :=
  results.foldl (fun s r => mergePageResult ov s.1 s.2 r) (doc, nid)

end MoleculeLayout

/-- Specification-side description of a batch of replacements: the id
substitution that sends each replaced block's id to its replacement's id
(first matching pair) and leaves every other id fixed. -/
def substOf (l : List (Block × Block)) (x : Nat) : Nat :=
  match l.find? (fun pr => pr.1.id == x) with
  | some pr => pr.2.id
  | none => x

/- Concrete inputs used by the claim witnesses and counterexamples. -/

/-- A trivial overlap-fraction function used where the overlap value is
irrelevant. -/
def ovZero : Polygon → Polygon → Q := fun _ _ => 0

/-- An overlap-fraction function returning the existing block's `x_start`,
used to stage exact overlap values in the merger witnesses. -/
def ovProbe : Polygon → Polygon → Q := fun e _ => e.x_start

def c1BlockA : Block :=
  { id := 1, block_type := .Text, polygon := ⟨10, 50, 100, 60⟩,
    page_id := 0, removed := false, spans := [⟨10, 10⟩] }

def c1BlockB : Block :=
  { id := 2, block_type := .Text, polygon := ⟨10, 10, 100, 20⟩,
    page_id := 0, removed := false, spans := [⟨30, 30⟩] }

def c1Page : Page :=
  { page_id := 0, width := 800, height := 100, struct := [1, 2],
    text_extraction_method := "pdftext", layout_sliced := true,
    layout_rules_applied := [] }

def c1Doc : Document := { pages := [c1Page], blocks := [c1BlockA, c1BlockB] }

/-- A layout-category define_regions rule covering page 0 with one
single-column region spanning the whole page. -/
def c1Rule : Rule :=
  { rtype := some "define_regions", position := none, widthRatioQ := none,
    pages := [0], regions := [⟨"r", some 0, some 100, some "single_column"⟩],
    region_order := ["r"] }

def c3BlockA : Block :=
  { id := 1, block_type := .Text, polygon := ⟨0, 0, 10, 10⟩,
    page_id := 0, removed := false, spans := [⟨10, 10⟩] }

/-- A block whose only span sits at source position 0: its span-midpoint
key is exactly 0. -/
def c3BlockX : Block :=
  { id := 2, block_type := .Text, polygon := ⟨0, 20, 10, 30⟩,
    page_id := 0, removed := false, spans := [⟨0, 0⟩] }

def c3PageA : Page :=
  { page_id := 0, width := 800, height := 100, struct := [1, 2],
    text_extraction_method := "pdftext", layout_sliced := true,
    layout_rules_applied := [] }

def c3DocA : Document := { pages := [c3PageA], blocks := [c3BlockA, c3BlockX] }

def c3OrdA : Block :=
  { id := 1, block_type := .Text, polygon := ⟨0, 0, 10, 10⟩,
    page_id := 0, removed := false, spans := [⟨10, 10⟩] }

def c3OrdB : Block :=
  { id := 2, block_type := .Picture, polygon := ⟨0, 20, 10, 30⟩,
    page_id := 0, removed := false, spans := [] }

def c3OrdC : Block :=
  { id := 3, block_type := .Text, polygon := ⟨0, 40, 10, 50⟩,
    page_id := 0, removed := false, spans := [⟨30, 30⟩] }

def c3PageB : Page :=
  { page_id := 0, width := 800, height := 100, struct := [1, 2, 3],
    text_extraction_method := "pdftext", layout_sliced := true,
    layout_rules_applied := [] }

def c3DocB : Document :=
  { pages := [c3PageB], blocks := [c3OrdA, c3OrdB, c3OrdC] }

def c5Block : Block :=
  { id := 1, block_type := .Text, polygon := ⟨0, 0, 10, 10⟩,
    page_id := 0, removed := false, spans := [] }

def c5Page : Page :=
  { page_id := 0, width := 800, height := 100, struct := [1],
    text_extraction_method := "pdftext", layout_sliced := true,
    layout_rules_applied := [] }

def c5Doc : Document := { pages := [c5Page], blocks := [c5Block] }

/-- A block_ordering define_regions rule with two regions that both cover
the whole page, both listed in region_order. -/
def c5Rule : Rule :=
  { rtype := some "define_regions", position := none, widthRatioQ := none,
    pages := [0],
    regions := [⟨"r1", some 0, some 100, some "single_column"⟩,
                ⟨"r2", some 0, some 100, some "single_column"⟩],
    region_order := ["r1", "r2"] }

def gutterBlockRemoved : Block :=
  { id := 1, block_type := .Text, polygon := ⟨10, 5, 70, 10⟩,
    page_id := 0, removed := false, spans := [] }

def gutterBlockKept : Block :=
  { id := 2, block_type := .Text, polygon := ⟨10, 15, 90, 20⟩,
    page_id := 0, removed := false, spans := [] }

def gutterPage : Page :=
  { page_id := 0, width := 800, height := 1000, struct := [1, 2],
    text_extraction_method := "pdftext", layout_sliced := true,
    layout_rules_applied := [] }

def gutterDoc : Document :=
  { pages := [gutterPage], blocks := [gutterBlockRemoved, gutterBlockKept] }

def gutterRule : Rule :=
  { rtype := some "exclude_gutter", position := some "left",
    widthRatioQ := some (1 / 10), pages := [], regions := [], region_order := [] }

/-- An exclude_gutter rule whose width_ratio 2 lies outside (0, 1]. -/
def wideGutterRule : Rule :=
  { rtype := some "exclude_gutter", position := some "left",
    widthRatioQ := some 2, pages := [], regions := [], region_order := [] }

/-- A rule of a type unknown to the layout rule dispatcher. -/
def unknownRule : Rule :=
  { rtype := some "frobnicate", position := none, widthRatioQ := none,
    pages := [], regions := [], region_order := [] }

/-- A rule with a missing width_ratio. -/
def missingParamRule : Rule :=
  { rtype := some "exclude_gutter", position := some "left",
    widthRatioQ := none, pages := [], regions := [], region_order := [] }

def c10Page : Page :=
  { page_id := 0, width := 800, height := 1000, struct := [],
    text_extraction_method := "pdftext", layout_sliced := true,
    layout_rules_applied := [] }

def c10Doc : Document := { pages := [c10Page], blocks := [] }

/-- A detection record whose page_idx -1 is not a valid page position. -/
def c10RecordNeg : MoleculeLayout.PageResult :=
  { page_idx := some (-1), molecules := [⟨[0, 0, 10, 10]⟩], tables := [] }

/-- A detection record whose page_idx 5 is beyond the page count. -/
def c10RecordBig : MoleculeLayout.PageResult :=
  { page_idx := some 5, molecules := [⟨[0, 0, 10, 10]⟩], tables := [] }

def c7B1 : Block :=
  { id := 1, block_type := .Text, polygon := ⟨10, 5, 100, 10⟩,
    page_id := 0, removed := false, spans := [] }

def c7B2 : Block :=
  { id := 2, block_type := .Text, polygon := ⟨420, 3, 500, 8⟩,
    page_id := 0, removed := false, spans := [] }

def c7B3 : Block :=
  { id := 3, block_type := .Text, polygon := ⟨20, 1, 100, 4⟩,
    page_id := 0, removed := false, spans := [] }

def c7B4 : Block :=
  { id := 4, block_type := .Text, polygon := ⟨400, 7, 500, 9⟩,
    page_id := 0, removed := false, spans := [] }

def c2Page : Page :=
  { page_id := 0, width := 800, height := 1000, struct := [10, 11, 12],
    text_extraction_method := "pdftext", layout_sliced := true,
    layout_rules_applied := [] }

/-- Three children whose staged overlap values (via `ovProbe`) are 1/2,
exactly 9/10, and 1. -/
def c2B0 : Block :=
  { id := 10, block_type := .Text, polygon := ⟨1 / 2, 0, 10, 10⟩,
    page_id := 0, removed := false, spans := [] }

def c2B1 : Block :=
  { id := 11, block_type := .Text, polygon := ⟨9 / 10, 0, 10, 10⟩,
    page_id := 0, removed := false, spans := [] }

def c2B2 : Block :=
  { id := 12, block_type := .Text, polygon := ⟨1, 0, 10, 10⟩,
    page_id := 0, removed := false, spans := [] }

def c2Idx : List Block := [c2B0, c2B1, c2B2]

def c2New : Block :=
  { id := 20, block_type := .Molecule, polygon := ⟨0, 0, 10, 10⟩,
    page_id := 0, removed := false, spans := [] }

def c4Old : Block :=
  { id := 7, block_type := .Table, polygon := ⟨0, 0, 10, 10⟩,
    page_id := 0, removed := false, spans := [] }

def c4New : Block :=
  { id := 40, block_type := .MoleculeTable, polygon := ⟨0, 0, 10, 10⟩,
    page_id := 9, removed := false, spans := [] }

def c4Add : Block :=
  { id := 50, block_type := .Molecule, polygon := ⟨20, 20, 30, 30⟩,
    page_id := 9, removed := false, spans := [] }

def c4Other : Block :=
  { id := 30, block_type := .Text, polygon := ⟨0, 20, 10, 30⟩,
    page_id := 0, removed := false, spans := [] }

def c4Page : Page :=
  { page_id := 0, width := 800, height := 1000, struct := [7, 30],
    text_extraction_method := "pdftext", layout_sliced := true,
    layout_rules_applied := [] }

def c4Idx : List Block := [c4Old, c4Other]

/-- C1.  Applying a layout-category define_regions rule replaces the page's
structure and appends "define_regions" to `layout_rules_applied`, but
OrderProcessor never consults that flag: on the concrete document below the
rule orders the page as [2, 1] and marks it, and OrderProcessor's default
ordering then re-sorts the very same page back to [1, 2].  This contradicts
the comment in apply_define_regions_rule ("Mark the page as handled by a
rule to prevent OrderProcessor from running"): the default source-position
ordering does run on the flagged page and changes its structure. -/
theorem claim_C1_flag_ignored_by_order_processor :
    ((LayoutRules.processorCall c1Doc [c1Rule]).pages.map (fun p => p.struct) = [[2, 1]]
      ∧ (LayoutRules.processorCall c1Doc [c1Rule]).pages.map
          (fun p => p.layout_rules_applied) = [["define_regions"]])
    ∧ (OrderProc.processorCall (LayoutRules.processorCall c1Doc [c1Rule]) []).pages.map
        (fun p => p.struct) = [[1, 2]] := by
  decide

/-- The non-degenerate reduction of apply_exclude_gutter_rule: with both
parameters present and not falsy, the rule filters the structure by the
gutter test. -/
theorem apply_exclude_gutter_rule_pos (doc : Document) (page : Page) {rule : Rule}
    {pos : String} {wr : Q} (hp : rule.position = some pos)
    (hw : rule.widthRatioQ = some wr) (hz : ¬(pos = "" ∨ wr.num = 0)) :
    LayoutRules.apply_exclude_gutter_rule doc page rule =
      { page with struct := (page.struct.filter
          (fun bid => !(LayoutRules.inGutter doc pos page.width wr bid))) } := by
  unfold LayoutRules.apply_exclude_gutter_rule
  rw [hp, hw]
  simp [hz]

/-- The degenerate reduction of apply_exclude_gutter_rule: with a missing or
falsy parameter, the rule is the identity on the page. -/
theorem apply_exclude_gutter_rule_noop (doc : Document) (page : Page) {rule : Rule}
    (h : ∀ pos wr, rule.position = some pos → rule.widthRatioQ = some wr →
      (pos = "" ∨ wr.num = 0)) :
    LayoutRules.apply_exclude_gutter_rule doc page rule = page := by
  unfold LayoutRules.apply_exclude_gutter_rule
  cases hp : rule.position with
  | none => rfl
  | some pos =>
    cases hw : rule.widthRatioQ with
    | none => rfl
    | some wr => simp [h pos wr hp hw]

/-- C8 counterexample.  A rule with width_ratio = 2, outside (0, 1], is not
treated as a no-op: on the concrete gutter document it removes every block
from the page's structure. -/
theorem claim_C8_counterexample :
    wideGutterRule.widthRatioQ = some 2
    ∧ (LayoutRules.apply_exclude_gutter_rule gutterDoc gutterPage wideGutterRule).struct = []
    ∧ gutterPage.struct = [1, 2] := by
  decide

/-- C8 (amended).  A rule with missing or falsy parameters (no position, an
empty position string, no width_ratio, or a zero width_ratio) leaves the
page unchanged, and a rule of unknown type is skipped by the dispatcher
without changing the page. -/
theorem claim_C8_invalid_rule_no_op :
    (∀ (doc : Document) (page : Page) (rule : Rule),
      (rule.position = none ∨ rule.position = some "" ∨
        rule.widthRatioQ = none ∨ rule.widthRatioQ = some 0) →
      LayoutRules.apply_exclude_gutter_rule doc page rule = page)
    ∧ (∀ (doc : Document) (page : Page) (rule : Rule),
      rule.rtype ≠ some "exclude_gutter" → rule.rtype ≠ some "define_regions" →
      LayoutRules.apply_rules doc page [rule] = page) := by
  constructor
  · intro doc page rule h
    apply apply_exclude_gutter_rule_noop
    intro pos wr hp hw
    rcases h with h | h | h | h
    · rw [h] at hp; exact Option.noConfusion hp
    · rw [h] at hp
      injection hp with hp
      exact Or.inl hp.symm
    · rw [h] at hw; exact Option.noConfusion hw
    · rw [h] at hw
      injection hw with hw
      exact Or.inr (by rw [← hw]; rfl)
  · intro doc page rule h1 h2
    simp [LayoutRules.apply_rules, h1, h2]

/-- C8 witness: the missing-width_ratio rule and the unknown-type rule are
both no-ops on the concrete gutter page. -/
theorem claim_C8_invalid_rule_no_op_witness :
    LayoutRules.apply_exclude_gutter_rule gutterDoc gutterPage missingParamRule = gutterPage
    ∧ LayoutRules.apply_rules gutterDoc gutterPage [unknownRule] = gutterPage :=
  ⟨claim_C8_invalid_rule_no_op.1 gutterDoc gutterPage missingParamRule
      (Or.inr (Or.inr (Or.inl rfl))),
   claim_C8_invalid_rule_no_op.2 gutterDoc gutterPage unknownRule
      (by decide) (by decide)⟩

/-- C9.  Applying exclude_gutter twice yields the same page as applying it
once: the first application removes every block satisfying the gutter test,
so the second application's scan finds none left (filtering is idempotent);
rules that fail the parameter check are no-ops both times. -/
theorem claim_C9_exclude_gutter_idempotent (doc : Document) (page : Page) (rule : Rule) :
    LayoutRules.apply_exclude_gutter_rule doc
      (LayoutRules.apply_exclude_gutter_rule doc page rule) rule =
    LayoutRules.apply_exclude_gutter_rule doc page rule := by
  by_cases hex : ∃ pos wr, rule.position = some pos ∧ rule.widthRatioQ = some wr
      ∧ ¬(pos = "" ∨ wr.num = 0)
  · obtain ⟨pos, wr, hp, hw, hz⟩ := hex
    rw [apply_exclude_gutter_rule_pos doc page hp hw hz,
        apply_exclude_gutter_rule_pos doc _ hp hw hz]
    simp only []
    congr 1
    rw [List.filter_filter]
    exact List.filter_congr (fun a _ => Bool.and_self _)
  · have hno : ∀ pos wr, rule.position = some pos → rule.widthRatioQ = some wr →
        (pos = "" ∨ wr.num = 0) := by
      intro pos wr hp hw
      by_contra hc
      exact hex ⟨pos, wr, hp, hw, hc⟩
    have h1 := apply_exclude_gutter_rule_noop doc page hno
    rw [h1]
    exact apply_exclude_gutter_rule_noop doc page hno

/-- C10 counterexample.  The record with page_idx -1 references no valid
page position (its index is negative), yet it is not skipped: merging it
into a one-page document appends a new molecule block to page 0 (Python
resolves index -1 to the last page). -/
theorem claim_C10_counterexample :
    c10RecordNeg.page_idx = some (-1)
    ∧ ¬ (0 ≤ (-1 : Int))
    ∧ c10Doc.pages.map (fun p => p.struct) = [[]]
    ∧ (MoleculeLayout.merge_molecule_blocks_to_pages ovZero c10Doc 100
        [c10RecordNeg]).1.pages.map (fun p => p.struct) = [[100]] := by
  decide

/-- C10 (amended).  A detection-result record whose page_idx is greater than
or equal to the number of pages is skipped entirely: the merge step returns
the document (and the id counter) unchanged. -/
theorem claim_C10_high_page_idx_skipped (ov : Polygon → Polygon → Q)
    (doc : Document) (nid : Nat) (r : MoleculeLayout.PageResult)
    (h : (doc.pages.length : Int) ≤ r.page_idx.getD 0) :
    MoleculeLayout.mergePageResult ov doc nid r = (doc, nid) := by
  unfold MoleculeLayout.mergePageResult
  simp [h]

/-- C10 witness: the record with page_idx 5 is skipped on the one-page
document. -/
theorem claim_C10_high_page_idx_skipped_witness :
    MoleculeLayout.mergePageResult ovZero c10Doc 100 c10RecordBig = (c10Doc, 100) :=
  claim_C10_high_page_idx_skipped ovZero c10Doc 100 c10RecordBig (by decide)

/-- The denominator of a `Q` is positive by construction. -/
theorem Q.den_pos (q : Q) : 0 < q.den := by
  have : (0 : Int) ≤ (q.dm1 : Int) := Int.ofNat_nonneg _
  unfold Q.den
  omega

/-- Totality of the `Q` order: not-less-than is greater-or-equal. -/
theorem Q.not_lt {a b : Q} : ¬ a < b ↔ b ≤ a := Int.not_lt

/-- Not-less-or-equal is strictly-greater. -/
theorem Q.not_le {a b : Q} : ¬ a ≤ b ↔ b < a := Int.not_le

/-- Transitivity of the `Q` order. -/
theorem Q.le_trans {a b c : Q} (h1 : a ≤ b) (h2 : b ≤ c) : a ≤ c := by
  have hb := Q.den_pos b
  have ha := Q.den_pos a
  have hc := Q.den_pos c
  have h1' := mul_le_mul_of_nonneg_right h1 (le_of_lt hc)
  have h2' := mul_le_mul_of_nonneg_right h2 (le_of_lt ha)
  have key : a.num * c.den * b.den ≤ c.num * a.den * b.den := by
    ring_nf
    ring_nf at h1' h2'
    linarith
  exact le_of_mul_le_mul_right key hb

/-- A strict `Q` inequality gives the weak one. -/
theorem Q.le_of_lt {a b : Q} (h : a < b) : a ≤ b := Int.le_of_lt h

/-- `insertKeyed` produces a permutation of consing the element. -/
theorem insertKeyed_perm {α : Type} (key : α → Q) (a : α) :
    ∀ l : List α, (insertKeyed key a l).Perm (a :: l) := by
  intro l
  induction l with
  | nil => simp [insertKeyed]
  | cons c cs ih =>
    unfold insertKeyed
    by_cases h : key c < key a
    · simp only [h, if_true]
      exact (ih.cons c).trans (List.Perm.swap a c cs)
    · simp [h]

/-- `sortKeyed` permutes its input. -/
theorem sortKeyed_perm {α : Type} (key : α → Q) :
    ∀ l : List α, (sortKeyed key l).Perm l := by
  intro l
  induction l with
  | nil => exact List.Perm.refl _
  | cons a as ih =>
    exact (insertKeyed_perm key a (sortKeyed key as)).trans (ih.cons a)

/-- Membership in an `insertKeyed` result. -/
theorem mem_insertKeyed {α : Type} {key : α → Q} {a x : α} {l : List α}
    (h : x ∈ insertKeyed key a l) : x = a ∨ x ∈ l := by
  have := (insertKeyed_perm key a l).mem_iff.mp h
  simpa using this

/-- Inserting into a list sorted ascending by `key` keeps it sorted. -/
theorem insertKeyed_pairwise {α : Type} {key : α → Q} {a : α} {l : List α}
    (h : List.Pairwise (fun x y => key x ≤ key y) l) :
    List.Pairwise (fun x y => key x ≤ key y) (insertKeyed key a l) := by
  induction l with
  | nil => simp [insertKeyed]
  | cons c cs ih =>
    rcases List.pairwise_cons.mp h with ⟨hc, hcs⟩
    unfold insertKeyed
    by_cases hlt : key c < key a
    · simp only [hlt, if_true]
      refine List.pairwise_cons.mpr ⟨?_, ih hcs⟩
      intro b hb
      rcases mem_insertKeyed hb with rfl | hb
      · exact Q.le_of_lt hlt
      · exact hc b hb
    · simp only [hlt, if_false]
      refine List.pairwise_cons.mpr ⟨?_, h⟩
      intro b hb
      have hac : key a ≤ key c := Q.not_lt.mp hlt
      rcases List.mem_cons.mp hb with rfl | hb
      · exact hac
      · exact Q.le_trans hac (hc b hb)

/-- `sortKeyed` sorts ascending by `key`. -/
theorem sortKeyed_pairwise {α : Type} (key : α → Q) :
    ∀ l : List α, List.Pairwise (fun x y => key x ≤ key y) (sortKeyed key l) := by
  intro l
  induction l with
  | nil => simp [sortKeyed]
  | cons a as ih => exact insertKeyed_pairwise ih

/-- The two duplicated _sort_blocks_in_reading_order implementations agree:
the layout-rule processor's loop partition equals the order processor's two
comprehensions. -/
theorem sort_blocks_implementations_agree (blocks : List Block) (t : String) (w : Q) :
    LayoutRules.sort_blocks_in_reading_order blocks t w =
      OrderProc.sort_blocks_in_reading_order blocks t w := by
  unfold LayoutRules.sort_blocks_in_reading_order OrderProc.sort_blocks_in_reading_order
  by_cases h : t = "two_column"
  · simp only [h, if_true]
    congr 1
    congr 1
    refine List.filter_congr ?_
    intro b _
    by_cases hx : b.polygon.x_start < w / 2
    · simp [hx, Q.not_le.mpr hx]
    · simp [hx, Q.not_lt.mp hx]
  · simp [h]

/-- C7.  Two-column ordering: the blocks are partitioned on
`x_start < page_width / 2` (left) versus `x_start ≥ page_width / 2` (right),
each partition is stably sorted ascending by `y_start`, and the whole left
partition precedes the whole right partition; both implementations agree,
the sort is a permutation sorted by `y_start`, and the concrete scenario of
page width 800 with x_starts 10, 420, 20, 400 orders the ids as
[3, 1, 2, 4]. -/
theorem claim_C7_two_column_ordering :
    (∀ (blocks : List Block) (w : Q),
      OrderProc.sort_blocks_in_reading_order blocks "two_column" w =
        sortBlocksByY (blocks.filter (fun b => decide (b.polygon.x_start < w / 2))) ++
        sortBlocksByY (blocks.filter (fun b => decide (b.polygon.x_start ≥ w / 2))))
    ∧ (∀ (blocks : List Block) (t : String) (w : Q),
      LayoutRules.sort_blocks_in_reading_order blocks t w =
        OrderProc.sort_blocks_in_reading_order blocks t w)
    ∧ (∀ l : List Block,
      List.Pairwise (fun x y => x.polygon.y_start ≤ y.polygon.y_start) (sortBlocksByY l))
    ∧ (∀ l : List Block, (sortBlocksByY l).Perm l)
    ∧ (OrderProc.sort_blocks_in_reading_order [c7B1, c7B2, c7B3, c7B4] "two_column" 800).map
        (fun b => b.id) = [3, 1, 2, 4] := by
  refine ⟨?_, sort_blocks_implementations_agree, ?_, ?_, ?_⟩
  · intro blocks w
    simp [OrderProc.sort_blocks_in_reading_order]
  · intro l
    exact sortKeyed_pairwise _ l
  · intro l
    exact sortKeyed_perm _ l
  · decide

/-- The gutter test holds exactly when the id resolves to a block lying
entirely in the requested gutter. -/
theorem inGutter_eq_true_iff_left (doc : Document) (pw wr : Q) (bid : Nat) :
    LayoutRules.inGutter doc "left" pw wr bid = true ↔
      ∃ b, getBlock doc bid = some b ∧ b.polygon.x_end < pw * wr := by
  unfold LayoutRules.inGutter
  cases hb : getBlock doc bid with
  | none => simp
  | some b => simp

/-- The right-gutter counterpart of `inGutter_eq_true_iff_left`. -/
theorem inGutter_eq_true_iff_right (doc : Document) (pw wr : Q) (bid : Nat) :
    LayoutRules.inGutter doc "right" pw wr bid = true ↔
      ∃ b, getBlock doc bid = some b ∧ b.polygon.x_start > pw * (1 - wr) := by
  unfold LayoutRules.inGutter
  cases hb : getBlock doc bid with
  | none => simp
  | some b => simp

/-- C6.  For a valid exclude_gutter rule, a structure id survives exactly
when it is not entirely in the gutter: for position "left" an id is removed
iff its block's right edge is strictly below page_width * width_ratio, for
"right" iff its left edge is strictly above page_width * (1 - width_ratio);
and the layout-rule processor never touches the document's block index. -/
theorem claim_C6_exclude_gutter_membership :
    (∀ (doc : Document) (page : Page) (rule : Rule) (pos : String) (wr : Q),
      rule.position = some pos → rule.widthRatioQ = some wr →
      (pos = "left" ∨ pos = "right") → wr.num ≠ 0 →
      ∀ bid, bid ∈ (LayoutRules.apply_exclude_gutter_rule doc page rule).struct ↔
        (bid ∈ page.struct ∧
          ¬ ∃ b, getBlock doc bid = some b ∧
            ((pos = "left" ∧ b.polygon.x_end < page.width * wr) ∨
             (pos = "right" ∧ b.polygon.x_start > page.width * (1 - wr))))) ∧
    (∀ (doc : Document) (rules : List Rule),
      (LayoutRules.processorCall doc rules).blocks = doc.blocks) := by
  constructor
  · intro doc page rule pos wr hp hw hpos hwz bid
    have hz : ¬(pos = "" ∨ wr.num = 0) := by
      rintro (he | h0)
      · rcases hpos with rfl | rfl
        · exact (by decide : ¬("left" = "")) he
        · exact (by decide : ¬("right" = "")) he
      · exact hwz h0
    rw [apply_exclude_gutter_rule_pos doc page hp hw hz]
    simp only [List.mem_filter, Bool.not_eq_true']
    refine and_congr_right (fun _ => ?_)
    rw [← Bool.not_eq_true]
    rcases hpos with rfl | rfl
    · rw [inGutter_eq_true_iff_left]
      constructor
      · intro hno ⟨b, hb, hcase⟩
        rcases hcase with ⟨-, hlt⟩ | ⟨habs, -⟩
        · exact hno ⟨b, hb, hlt⟩
        · exact (by decide : ¬("left" = "right")) habs
      · intro hno ⟨b, hb, hlt⟩
        exact hno ⟨b, hb, Or.inl ⟨rfl, hlt⟩⟩
    · rw [inGutter_eq_true_iff_right]
      constructor
      · intro hno ⟨b, hb, hcase⟩
        rcases hcase with ⟨habs, -⟩ | ⟨-, hlt⟩
        · exact (by decide : ¬("right" = "left")) habs
        · exact hno ⟨b, hb, hlt⟩
      · intro hno ⟨b, hb, hlt⟩
        exact hno ⟨b, hb, Or.inr ⟨rfl, hlt⟩⟩
  · intro doc rules
    rfl

/-- C6 witness: on the concrete 800-wide page with ratio 1/10 the block
with x_end 70 is removed from the structure and the block with x_end 90 is
retained. -/
theorem claim_C6_exclude_gutter_membership_witness :
    (1 ∉ (LayoutRules.apply_exclude_gutter_rule gutterDoc gutterPage gutterRule).struct)
    ∧ 2 ∈ (LayoutRules.apply_exclude_gutter_rule gutterDoc gutterPage gutterRule).struct := by
  have h := claim_C6_exclude_gutter_membership.1 gutterDoc gutterPage gutterRule
    "left" (1 / 10) rfl rfl (Or.inl rfl) (by decide)
  constructor
  · intro hmem
    rcases (h 1).mp hmem with ⟨-, hno⟩
    exact hno ⟨gutterBlockRemoved, rfl, Or.inl ⟨rfl, by decide⟩⟩
  · refine (h 2).mpr ⟨by decide, ?_⟩
    rintro ⟨b, hb, hcase⟩
    have hb' : b = gutterBlockKept := by
      have : getBlock gutterDoc 2 = some gutterBlockKept := by decide
      rw [this] at hb
      injection hb with hb
      exact hb.symm
    subst hb'
    rcases hcase with ⟨-, hlt⟩ | ⟨habs, -⟩
    · exact (by decide : ¬(Marker.gutterBlockKept.polygon.x_end <
        Marker.gutterPage.width * (1 / 10))) hlt
    · exact (by decide : ¬(("left" : String) = "right")) habs

/-- The qualifying predicate of the replacement scan, characterised at the
propositional level: not type-excluded, passing the (possibly empty) type
restriction, and overlapping at or above the threshold. -/
theorem replaceScanPred_iff (ov : Polygon → Polygon → Q) (threshold : Q)
    (exclude_types target_types : List BlockTypes) (nb b : Block) :
    ((!(decide (b.block_type ∈ exclude_types)) &&
      ((decide (target_types = [])) || decide (b.block_type ∈ target_types)) &&
      decide (threshold ≤ ov b.polygon nb.polygon)) = true) ↔
    (b.block_type ∉ exclude_types ∧ (target_types = [] ∨ b.block_type ∈ target_types)
      ∧ threshold ≤ ov b.polygon nb.polygon) := by
  simp [and_assoc]

/-- C2.  First-match replacement with inclusive threshold: in the current
(non-removed) children scan order, the chosen target of a candidate is the
first block that is not type-excluded, is in the type-restriction set when
a non-empty one is given, and whose overlap fraction with the candidate is
greater than or equal to the threshold (so exact equality triggers, and
blocks after the first qualifying one -- even qualifying ones -- are never
chosen); when every scanned block is skipped or overlaps strictly below the
threshold, no target is chosen and the candidate becomes an addition. -/
theorem claim_C2_first_match_replacement :
    (∀ (ov : Polygon → Polygon → Q) (threshold : Q)
       (excl tgt : List BlockTypes) (idx : List Block) (page : Page) (nb : Block)
       (pre : List Block) (c : Block) (post : List Block),
      currentChildren idx page = pre ++ c :: post →
      (∀ b ∈ pre, b.block_type ∈ excl ∨ (tgt ≠ [] ∧ b.block_type ∉ tgt)
        ∨ ov b.polygon nb.polygon < threshold) →
      c.block_type ∉ excl → (tgt = [] ∨ c.block_type ∈ tgt) →
      threshold ≤ ov c.polygon nb.polygon →
      MoleculeLayout.findReplaceTarget ov threshold excl tgt (currentChildren idx page) nb
        = some c)
    ∧ (∀ (ov : Polygon → Polygon → Q) (threshold : Q)
       (excl tgt : List BlockTypes) (idx : List Block) (page : Page) (nb : Block),
      (∀ b ∈ currentChildren idx page, b.block_type ∉ excl →
        (tgt = [] ∨ b.block_type ∈ tgt) → ov b.polygon nb.polygon < threshold) →
      MoleculeLayout.findReplaceTarget ov threshold excl tgt (currentChildren idx page) nb
        = none) := by
  constructor
  · intro ov threshold excl tgt idx page nb pre c post hsplit hpre hc1 hc2 hc3
    rw [hsplit]
    clear hsplit
    unfold MoleculeLayout.findReplaceTarget
    induction pre with
    | nil =>
      rw [List.nil_append, List.find?_cons_of_pos]
      exact (replaceScanPred_iff ov threshold excl tgt nb c).mpr ⟨hc1, hc2, hc3⟩
    | cons b rest ih =>
      rw [List.cons_append, List.find?_cons_of_neg]
      · exact ih (fun x hx => hpre x (List.mem_cons_of_mem b hx))
      · intro hb
        rcases (replaceScanPred_iff ov threshold excl tgt nb b).mp hb with ⟨h1, h2, h3⟩
        rcases hpre b (List.mem_cons_self b rest) with hmem | ⟨hne, hnotin⟩ | hlt
        · exact h1 hmem
        · rcases h2 with h2 | h2
          · exact hne h2
          · exact hnotin h2
        · exact (Q.not_le.mpr hlt) h3
  · intro ov threshold excl tgt idx page nb hall
    unfold MoleculeLayout.findReplaceTarget
    rw [List.find?_eq_none]
    intro b hb hpred
    rcases (replaceScanPred_iff ov threshold excl tgt nb b).mp hpred with ⟨h1, h2, h3⟩
    exact (Q.not_le.mpr (hall b hb h1 h2)) h3

/-- C2 witness: with staged overlap values 1/2, 9/10 and 1 against
threshold 9/10, the scan picks the second child -- whose overlap equals the
threshold exactly -- and not the third (also qualifying) one; with
threshold 2 no child qualifies and the candidate becomes an addition. -/
theorem claim_C2_first_match_replacement_witness :
    MoleculeLayout.findReplaceTarget ovProbe (9 / 10) [] []
      (currentChildren c2Idx c2Page) c2New = some c2B1
    ∧ MoleculeLayout.findReplaceTarget ovProbe 2 [] []
      (currentChildren c2Idx c2Page) c2New = none :=
  ⟨claim_C2_first_match_replacement.1 ovProbe (9 / 10) [] [] c2Idx c2Page c2New
      [c2B0] c2B1 [c2B2] (by decide) (by decide) (by decide) (Or.inl rfl) (by decide),
   claim_C2_first_match_replacement.2 ovProbe 2 [] [] c2Idx c2Page c2New (by decide)⟩

namespace OrderProc

/-- Looking up the id just set. -/
theorem keyLookup_keySet_self (m : KeyMap) (bid : Nat) (v : Q) :
    keyLookup (keySet m bid v) bid = some v := by
  induction m with
  | nil => simp [keySet, keyLookup]
  | cons p rest ih =>
    obtain ⟨k0, v0⟩ := p
    by_cases h : k0 = bid
    · subst h
      simp [keySet, keyLookup]
    · simp [keySet, keyLookup, h, ih]

/-- Setting a different id does not change a lookup. -/
theorem keyLookup_keySet_ne (m : KeyMap) {bid k : Nat} (v : Q) (h : k ≠ bid) :
    keyLookup (keySet m k v) bid = keyLookup m bid := by
  induction m with
  | nil => simp [keySet, keyLookup, h]
  | cons p rest ih =>
    obtain ⟨k0, v0⟩ := p
    by_cases hp : k0 = k
    · subst hp
      simp [keySet, keyLookup, h]
    · by_cases hb : k0 = bid <;> simp [keySet, keyLookup, hp, hb, ih, Ne.symm h]

/-- The span-key loop leaves ids outside the processed list untouched. -/
theorem foldl_initStep_not_mem (doc : Document) {bid : Nat} :
    ∀ (l : List Nat) (m : KeyMap), bid ∉ l →
      keyLookup (List.foldl (initStep doc) m l) bid = keyLookup m bid := by
  intro l
  induction l with
  | nil => intro m _; rfl
  | cons x xs ih =>
    intro m hnot
    rw [List.foldl_cons]
    rw [ih _ (fun h => hnot (List.mem_cons_of_mem x h))]
    have hxne : x ≠ bid := fun h => hnot (by rw [← h]; exact List.mem_cons_self x xs)
    cases hgb : getBlock doc x with
    | none => simp [initStep, hgb]
    | some b =>
      cases hsp : spansKey b.spans with
      | none => simp [initStep, hgb, hsp]
      | some k =>
        simp only [initStep, hgb, hsp]
        exact keyLookup_keySet_ne m k hxne

/-- After the span-key loop, every id of the processed list that resolves
to a block with spans carries its span-midpoint key. -/
theorem foldl_initStep_mem (doc : Document) {bid : Nat} {b : Block} {k : Q}
    (hb : getBlock doc bid = some b) (hk : spansKey b.spans = some k) :
    ∀ (l : List Nat) (m : KeyMap), bid ∈ l →
      keyLookup (List.foldl (initStep doc) m l) bid = some k := by
  intro l
  induction l with
  | nil => intro m h; cases h
  | cons x xs ih =>
    intro m hl
    rw [List.foldl_cons]
    by_cases hmem : bid ∈ xs
    · exact ih _ hmem
    · have hx : x = bid := by
        rcases List.mem_cons.mp hl with h | h
        · exact h.symm
        · exact absurd h hmem
      subst hx
      rw [foldl_initStep_not_mem doc xs _ hmem]
      simp only [initStep, hb, hk]
      exact keyLookup_keySet_self m x k

/-- Interpolating some other id never changes a lookup. -/
theorem keyLookup_interpolateKey_ne (struct : List Nat) (m : KeyMap)
    {x bid : Nat} (hx : x ≠ bid) :
    keyLookup (interpolateKey struct m x) bid = keyLookup m bid := by
  unfold interpolateKey
  split
  · rfl
  · split
    · exact keyLookup_keySet_ne _ _ hx
    · split
      · exact keyLookup_keySet_ne _ _ hx
      · rfl

/-- The interpolation loop never overwrites a strictly positive key. -/
theorem assignStep_preserve {struct : List Nat} {m : KeyMap} {bid : Nat} {k : Q}
    (x : Nat) (hk : keyLookup m bid = some k) (hpos : 0 < k) :
    keyLookup (assignStep struct m x) bid = some k := by
  by_cases hx : x = bid
  · subst hx
    have hmem : keyMem m x = true := by simp [keyMem, hk]
    simp only [assignStep, hmem, if_true, hk, Option.getD_some, hpos]
  · simp only [assignStep]
    split
    · split
      · exact hk
      · rw [keyLookup_interpolateKey_ne struct m hx]
        exact hk
    · have hks : keyLookup (keySet m x 0) bid = some k := by
        rw [keyLookup_keySet_ne m 0 hx]
        exact hk
      split
      · exact hks
      · rw [keyLookup_interpolateKey_ne struct _ hx]
        exact hks

/-- The whole interpolation loop preserves strictly positive keys. -/
theorem foldl_assignStep_preserve (struct : List Nat) {bid : Nat} {k : Q}
    (hpos : 0 < k) :
    ∀ (l : List Nat) (m : KeyMap), keyLookup m bid = some k →
      keyLookup (List.foldl (assignStep struct) m l) bid = some k := by
  intro l
  induction l with
  | nil => intro m hk; exact hk
  | cons x xs ih =>
    intro m hk
    rw [List.foldl_cons]
    exact ih _ (assignStep_preserve x hk hpos)

end OrderProc

/-- C3 counterexample.  A block whose only span sits at source position 0
has span-midpoint key exactly 0, but the `block_idxs[bid] > 0` test treats
0 as unassigned: the code re-keys block 2 by neighbour interpolation to 11
(preceding key 10 plus one step) and leaves the order [1, 2], whereas
keying it by its span midpoint 0, as the claim states, would stably sort
the page to [2, 1]. -/
theorem claim_C3_counterexample :
    OrderProc.spansKey c3BlockX.spans = some 0
    ∧ (2 ∈ c3PageA.struct ∧ getBlock c3DocA 2 = some c3BlockX)
    ∧ OrderProc.keyLookup (OrderProc.assignKeys c3DocA c3PageA.struct) 2 = some 11
    ∧ (OrderProc.defaultOrderPage c3DocA c3PageA).struct = [1, 2]
    ∧ OrderProc.sortStructByKeys ([(1, 10), (2, 0)] : OrderProc.KeyMap)
        c3PageA.struct = [2, 1] := by
  decide

/-- C3 (amended).  On every page eligible for default ordering, every
structure block with at least one contained span whose span-midpoint key is
strictly positive keeps that key (midpoint of the first span's
minimum_position and the last span's maximum_position); the final structure
is the stable ascending sort of the structure by the assigned keys;
ineligible pages are untouched; and in the concrete scenario with span keys
10 and 30 around a spanless block, the spanless block is interpolated to
key 11 and the final order is A, B, C. -/
theorem claim_C3_default_ordering :
    (∀ (doc : Document) (struct : List Nat) (bid : Nat) (b : Block) (k : Q),
      getBlock doc bid = some b → OrderProc.spansKey b.spans = some k → 0 < k →
      bid ∈ struct →
      OrderProc.keyLookup (OrderProc.assignKeys doc struct) bid = some k)
    ∧ (∀ (doc : Document) (page : Page), OrderProc.pageEligible page = true →
      (OrderProc.defaultOrderPage doc page).struct =
        OrderProc.sortStructByKeys (OrderProc.assignKeys doc page.struct) page.struct)
    ∧ (∀ (doc : Document) (page : Page), OrderProc.pageEligible page = false →
      OrderProc.defaultOrderPage doc page = page)
    ∧ (OrderProc.keyLookup (OrderProc.assignKeys c3DocB c3PageB.struct) 1 = some 10
      ∧ OrderProc.keyLookup (OrderProc.assignKeys c3DocB c3PageB.struct) 2 = some 11
      ∧ OrderProc.keyLookup (OrderProc.assignKeys c3DocB c3PageB.struct) 3 = some 30
      ∧ (OrderProc.defaultOrderPage c3DocB c3PageB).struct = [1, 2, 3]) := by
  refine ⟨?_, ?_, ?_, by decide⟩
  · intro doc struct bid b k hb hk hpos hmem
    unfold OrderProc.assignKeys
    exact OrderProc.foldl_assignStep_preserve struct hpos struct _
      (OrderProc.foldl_initStep_mem doc hb hk struct [] hmem)
  · intro doc page h
    unfold OrderProc.defaultOrderPage
    rw [h]
    rfl
  · intro doc page h
    unfold OrderProc.defaultOrderPage
    rw [h]
    rfl

/-- C3 witness: block 3 of the concrete scenario has span midpoint 30 > 0
and indeed keeps key 30, and the eligible page's structure is the key sort. -/
theorem claim_C3_default_ordering_witness :
    OrderProc.keyLookup (OrderProc.assignKeys c3DocB c3PageB.struct) 3 = some 30
    ∧ (OrderProc.defaultOrderPage c3DocB c3PageB).struct =
        OrderProc.sortStructByKeys (OrderProc.assignKeys c3DocB c3PageB.struct)
          c3PageB.struct :=
  ⟨claim_C3_default_ordering.1 c3DocB c3PageB.struct 3 c3OrdC 30
      (by decide) (by decide) (by decide) (by decide),
   claim_C3_default_ordering.2.1 c3DocB c3PageB (by decide)⟩

/-- A resolved block carries the id it was looked up under. -/
theorem getBlock_id {doc : Document} {bid : Nat} {b : Block}
    (h : getBlock doc bid = some b) : b.id = bid := by
  have hp := List.find?_some h
  simpa using hp

/-- Membership is invariant under the stable sort. -/
theorem mem_sortKeyed {α : Type} {key : α → Q} {x : α} {l : List α} :
    x ∈ sortKeyed key l ↔ x ∈ l :=
  (sortKeyed_perm key l).mem_iff

/-- Reading-order sorting only permutes a subset of its input. -/
theorem mem_sort_blocks_in_reading_order {b : Block} {l : List Block}
    {t : String} {w : Q} (h : b ∈ LayoutRules.sort_blocks_in_reading_order l t w) :
    b ∈ l := by
  unfold LayoutRules.sort_blocks_in_reading_order at h
  split at h
  · rcases List.mem_append.mp h with h' | h' <;>
      exact (List.mem_filter.mp (mem_sortKeyed.mp h')).1
  · exact mem_sortKeyed.mp h

/-- One region iteration only appends ids of blocks drawn from the resolved
block list. -/
theorem regionStep_mem {all : List Block} {ph pw : Q} {regions : List Region}
    {acc : List Nat} {r : String} {bid : Nat}
    (h : bid ∈ LayoutRules.regionStep all ph pw regions acc r) :
    bid ∈ acc ∨ ∃ b ∈ all, b.id = bid := by
  unfold LayoutRules.regionStep at h
  split at h
  · exact Or.inl h
  · rcases List.mem_append.mp h with h' | h'
    · exact Or.inl h'
    · rcases List.mem_map.mp h' with ⟨b, hb, hid⟩
      exact Or.inr ⟨b, (List.mem_filter.mp (mem_sort_blocks_in_reading_order hb)).1, hid⟩

/-- Every id placed by the region loop is the id of one of the resolved
blocks. -/
theorem foldl_regionStep_mem {all : List Block} {ph pw : Q}
    {regions : List Region} {bid : Nat} :
    ∀ (ro : List String) (acc : List Nat),
      bid ∈ ro.foldl (LayoutRules.regionStep all ph pw regions) acc →
      bid ∈ acc ∨ ∃ b ∈ all, b.id = bid := by
  intro ro
  induction ro with
  | nil => intro acc h; exact Or.inl h
  | cons r rs ih =>
    intro acc h
    rw [List.foldl_cons] at h
    rcases ih _ h with h' | h'
    · exact regionStep_mem h'
    · exact Or.inr h'

/-- Membership in the result of `appendNonRegion`, under the invariant that
every structure id resolves in the document index: an id is in the final
structure exactly when it is in the region-built part or in the original
structure. -/
theorem mem_appendNonRegion {doc : Document} {struct new_structure : List Nat}
    (hres : ∀ bid ∈ struct, ∃ b, getBlock doc bid = some b) (bid : Nat) :
    bid ∈ LayoutRules.appendNonRegion doc struct new_structure ↔
      (bid ∈ new_structure ∨ bid ∈ struct) := by
  unfold LayoutRules.appendNonRegion
  dsimp only
  split
  · rename_i hempty
    constructor
    · exact Or.inl
    · rintro (h | h)
      · exact h
      · by_cases hnew : bid ∈ new_structure
        · exact hnew
        · exfalso
          have : bid ∈ struct.filter (fun x => !(new_structure.contains x)) := by
            rw [List.mem_filter]
            exact ⟨h, by simp [hnew]⟩
          rw [List.isEmpty_iff] at hempty
          rw [hempty] at this
          cases this
  · constructor
    · intro h
      rcases List.mem_append.mp h with h' | h'
      · exact Or.inl h'
      · rcases List.mem_map.mp h' with ⟨b, hb, hid⟩
        have hb' := mem_sortKeyed.mp hb
        rcases List.mem_filterMap.mp hb' with ⟨a, ha, hget⟩
        have := getBlock_id hget
        right
        rw [← hid, this]
        exact (List.mem_filter.mp ha).1
    · rintro (h | h)
      · exact List.mem_append_left _ h
      · by_cases hnew : bid ∈ new_structure
        · exact List.mem_append_left _ hnew
        · refine List.mem_append_right _ ?_
          rcases hres bid h with ⟨b, hget⟩
          refine List.mem_map.mpr ⟨b, ?_, getBlock_id hget⟩
          refine mem_sortKeyed.mpr ?_
          refine List.mem_filterMap.mpr ⟨bid, ?_, hget⟩
          rw [List.mem_filter]
          exact ⟨h, by simp [hnew]⟩

/-- C5 counterexample.  A block_ordering define_regions rule whose two
listed regions both cover the whole page duplicates the only block's id:
the resulting structure [1, 1] is not a permutation of the prior structure
[1]. -/
theorem claim_C5_counterexample :
    (OrderProc.apply_define_regions_rule c5Doc c5Page c5Rule).struct = [1, 1]
    ∧ c5Page.struct = [1]
    ∧ ¬ ((OrderProc.apply_define_regions_rule c5Doc c5Page c5Rule).struct).Perm
        c5Page.struct := by
  refine ⟨by decide, by decide, ?_⟩
  intro hperm
  have := hperm.length_eq
  rw [(by decide : (OrderProc.apply_define_regions_rule c5Doc c5Page c5Rule).struct
    = [1, 1])] at this
  rw [(by decide : c5Page.struct = [1])] at this
  simp at this

/-- C5 (amended).  Default ordering always produces a permutation of the
page's structure; define_regions preserves the set of structure ids (no id
is added or removed, given that every structure id resolves in the document
index), but it may duplicate an id when a block is selected by more than
one applied region, so its result need not be a permutation. -/
theorem claim_C5_structure_ids_preserved :
    (∀ (doc : Document) (page : Page),
      ((OrderProc.defaultOrderPage doc page).struct).Perm page.struct)
    ∧ (∀ (doc : Document) (page : Page) (rule : Rule),
      (∀ bid ∈ page.struct, ∃ b, getBlock doc bid = some b) →
      ∀ bid, bid ∈ (OrderProc.apply_define_regions_rule doc page rule).struct ↔
        bid ∈ page.struct) := by
  constructor
  · intro doc page
    unfold OrderProc.defaultOrderPage
    split
    · exact sortKeyed_perm _ _
    · exact List.Perm.refl _
  · intro doc page rule hres bid
    unfold OrderProc.apply_define_regions_rule
    rw [mem_appendNonRegion hres]
    constructor
    · rintro (h | h)
      · rcases foldl_regionStep_mem rule.region_order [] h with h' | h'
        · cases h'
        · rcases h' with ⟨b, hb, hid⟩
          rcases List.mem_filterMap.mp hb with ⟨a, ha, hget⟩
          rw [← hid, getBlock_id hget]
          exact ha
      · exact h
    · intro h
      exact Or.inr h

/-- C5 witness: on a one-block page whose id resolves, define_regions keeps
exactly the id set {1}. -/
theorem claim_C5_structure_ids_preserved_witness :
    1 ∈ (OrderProc.apply_define_regions_rule c5Doc c5Page c5Rule).struct ↔
      1 ∈ c5Page.struct :=
  claim_C5_structure_ids_preserved.2 c5Doc c5Page c5Rule
    (fun bid hb => by
      have : bid = 1 := by
        have h := hb
        rw [(by decide : c5Page.struct = [1])] at h
        simpa using h
      rw [this]
      exact ⟨c5Block, by decide⟩) 1

/-- Substituting under one more replacement pair: applying the pair's id
swap first and then the remaining substitution equals the substitution of
the whole list, provided the pair's new id is not a replaced id. -/
theorem substOf_cons {pr : Block × Block} {rest : List (Block × Block)}
    (hnew : ∀ pr' ∈ rest, pr.2.id ≠ pr'.1.id) (x : Nat) :
    substOf rest (if x == pr.1.id then pr.2.id else x) = substOf (pr :: rest) x := by
  by_cases hx : x = pr.1.id
  · subst hx
    have hnone : rest.find? (fun p => p.1.id == pr.2.id) = none :=
      List.find?_eq_none.mpr (fun a ha => by simp [Ne.symm (hnew a ha)])
    simp [substOf, hnone]
  · rw [if_neg (by simp [hx])]
    unfold substOf
    rw [List.find?_cons_of_neg _ (by simp [Ne.symm hx])]

/-- The replacement phase of _execute_block_operations: the structure
undergoes the simultaneous first-match id substitution (each new block
takes its target's position), the page keeps its identity, untouched index
blocks survive, and every replacement's new block is registered with the
page's id. -/
theorem foldl_replaceStep_spec :
    ∀ (l : List (Block × Block)) (idx : List Block) (page : Page),
      (∀ pr ∈ l, ∀ pr' ∈ l, pr.2.id ≠ pr'.1.id) →
      (l.foldl MoleculeLayout.replaceStep (idx, page)).2.struct =
          page.struct.map (substOf l)
      ∧ (l.foldl MoleculeLayout.replaceStep (idx, page)).2.page_id = page.page_id
      ∧ (∀ b ∈ idx, (∀ pr' ∈ l, b.id ≠ pr'.1.id) →
          b ∈ (l.foldl MoleculeLayout.replaceStep (idx, page)).1)
      ∧ (∀ pr ∈ l, ({ pr.2 with page_id := page.page_id } : Block) ∈
          (l.foldl MoleculeLayout.replaceStep (idx, page)).1) := by
  intro l
  induction l with
  | nil =>
    intro idx page _
    refine ⟨?_, rfl, fun b hb _ => hb, by simp⟩
    rw [show List.map (substOf ([] : List (Block × Block))) page.struct = page.struct from
      (List.map_congr_left (fun a _ => rfl)).trans (List.map_id' page.struct)]
    rfl
  | cons pr rest ih =>
    intro idx page h
    have hnew : ∀ pr' ∈ rest, pr.2.id ≠ pr'.1.id := fun pr' h' =>
      h pr (List.mem_cons_self pr rest) pr' (List.mem_cons_of_mem pr h')
    have hrest : ∀ p ∈ rest, ∀ p' ∈ rest, p.2.id ≠ p'.1.id := fun p hp p' hp' =>
      h p (List.mem_cons_of_mem pr hp) p' (List.mem_cons_of_mem pr hp')
    rw [List.foldl_cons]
    rw [show MoleculeLayout.replaceStep (idx, page) pr =
        (idx.map (fun b => if b.id == pr.1.id then { b with removed := true } else b)
          ++ [{ pr.2 with page_id := page.page_id }],
         { page with struct := page.struct.map (fun x =>
             if x == pr.1.id then ({ pr.2 with page_id := page.page_id } : Block).id
             else x) })
      from rfl]
    obtain ⟨ih1, ih2, ih3, ih4⟩ := ih
      (idx.map (fun b => if b.id == pr.1.id then { b with removed := true } else b)
        ++ [{ pr.2 with page_id := page.page_id }])
      { page with struct := page.struct.map (fun x =>
          if x == pr.1.id then ({ pr.2 with page_id := page.page_id } : Block).id else x) }
      hrest
    refine ⟨?_, ih2, ?_, ?_⟩
    · rw [ih1]
      dsimp only
      rw [List.map_map]
      exact List.map_congr_left (fun a _ => substOf_cons hnew a)
    · intro b hb hne
      refine ih3 b ?_ (fun pr' h' => hne pr' (List.mem_cons_of_mem pr h'))
      refine List.mem_append_left _ ?_
      refine List.mem_map.mpr ⟨b, hb, ?_⟩
      simp [hne pr (List.mem_cons_self pr rest)]
    · intro pr0 hpr0
      rcases List.mem_cons.mp hpr0 with heq | htail
      · subst heq
        refine ih3 _ ?_ ?_
        · exact List.mem_append_right _ (List.mem_singleton.mpr rfl)
        · intro pr' h'
          exact hnew pr' h'
      · exact ih4 pr0 htail

/-- The addition phase of _execute_block_operations: the new blocks' ids
are appended to the end of the structure in order (each exactly once), the
page keeps its identity, all index blocks survive, and every added block is
registered with the page's id. -/
theorem foldl_addStep_spec :
    ∀ (l : List Block) (idx : List Block) (page : Page),
      (l.foldl MoleculeLayout.addStep (idx, page)).2.struct =
          page.struct ++ l.map (fun b => b.id)
      ∧ (l.foldl MoleculeLayout.addStep (idx, page)).2.page_id = page.page_id
      ∧ (∀ b ∈ idx, b ∈ (l.foldl MoleculeLayout.addStep (idx, page)).1)
      ∧ (∀ b ∈ l, ({ b with page_id := page.page_id } : Block) ∈
          (l.foldl MoleculeLayout.addStep (idx, page)).1) := by
  intro l
  induction l with
  | nil =>
    intro idx page
    refine ⟨by simp, rfl, fun b hb => hb, by simp⟩
  | cons b bs ih =>
    intro idx page
    rw [List.foldl_cons]
    rw [show MoleculeLayout.addStep (idx, page) b =
        (idx ++ [{ b with page_id := page.page_id }],
         { page with
            struct := page.struct ++ [({ b with page_id := page.page_id } : Block).id] })
      from rfl]
    obtain ⟨ih1, ih2, ih3, ih4⟩ := ih
      (idx ++ [{ b with page_id := page.page_id }])
      { page with struct := page.struct ++ [({ b with page_id := page.page_id } : Block).id] }
    refine ⟨?_, ih2, ?_, ?_⟩
    · rw [ih1]
      simp
    · intro b0 hb0
      exact ih3 b0 (List.mem_append_left _ hb0)
    · intro b0 hb0
      rcases List.mem_cons.mp hb0 with heq | htail
      · subst heq
        exact ih3 _ (List.mem_append_right _ (List.mem_singleton.mpr rfl))
      · exact ih4 b0 htail

/-- C4.  _execute_block_operations runs all replacements before all
additions: the final structure is the original structure with each replaced
block's id swapped in place for its replacement's id, followed by the added
blocks' ids appended at the end, each exactly once; and every placed block
(replacement or addition) is registered in the index with its page_id set
to the page's identifier. -/
theorem claim_C4_replacements_then_additions :
    ∀ (idx : List Block) (page : Page) (toReplace : List (Block × Block))
      (toAdd : List Block),
    (∀ pr ∈ toReplace, ∀ pr' ∈ toReplace, pr.2.id ≠ pr'.1.id) →
    ((MoleculeLayout.execute_block_operations idx page toReplace toAdd).2.struct =
        page.struct.map (substOf toReplace) ++ toAdd.map (fun b => b.id))
    ∧ ((MoleculeLayout.execute_block_operations idx page toReplace toAdd).2.page_id =
        page.page_id)
    ∧ (∀ pr ∈ toReplace, ({ pr.2 with page_id := page.page_id } : Block) ∈
        (MoleculeLayout.execute_block_operations idx page toReplace toAdd).1)
    ∧ (∀ b ∈ toAdd, ({ b with page_id := page.page_id } : Block) ∈
        (MoleculeLayout.execute_block_operations idx page toReplace toAdd).1) := by
  intro idx page toReplace toAdd hfresh
  obtain ⟨h1, h2, h3, h4⟩ := foldl_replaceStep_spec toReplace idx page hfresh
  obtain ⟨g1, g2, g3, g4⟩ := foldl_addStep_spec toAdd
    (toReplace.foldl MoleculeLayout.replaceStep (idx, page)).1
    (toReplace.foldl MoleculeLayout.replaceStep (idx, page)).2
  rw [show MoleculeLayout.execute_block_operations idx page toReplace toAdd =
      toAdd.foldl MoleculeLayout.addStep
        ((toReplace.foldl MoleculeLayout.replaceStep (idx, page)).1,
         (toReplace.foldl MoleculeLayout.replaceStep (idx, page)).2)
    from rfl]
  refine ⟨?_, ?_, ?_, ?_⟩
  · rw [g1, h1]
  · rw [g2, h2]
  · intro pr hpr
    exact g3 _ (h4 pr hpr)
  · intro b hb
    have := g4 b hb
    rw [h2] at this
    exact this

/-- C4 witness: replacing block 7 by block 40 and adding block 50 on the
concrete page yields structure [40, 30, 50], and the added block is indexed
with the page's id. -/
theorem claim_C4_replacements_then_additions_witness :
    ((MoleculeLayout.execute_block_operations c4Idx c4Page [(c4Old, c4New)]
        [c4Add]).2.struct =
      c4Page.struct.map (substOf [(c4Old, c4New)]) ++ [c4Add].map (fun b => b.id))
    ∧ ({ c4Add with page_id := c4Page.page_id } : Block) ∈
        (MoleculeLayout.execute_block_operations c4Idx c4Page [(c4Old, c4New)]
          [c4Add]).1 :=
  ⟨(claim_C4_replacements_then_additions c4Idx c4Page [(c4Old, c4New)] [c4Add]
      (by decide)).1,
   (claim_C4_replacements_then_additions c4Idx c4Page [(c4Old, c4New)] [c4Add]
      (by decide)).2.2.2 c4Add (by decide)⟩

end Marker
